import Mathlib

/-!
Verification of the isotope selector/filter in `tools/compile_periodic.py`
(crystvis-js). The script iterates over a periodic table, merges NMR data,
filters isotopes by abundance and spin knowledge, tracks three running
"most abundant" maxima, and emits the result as a JSON module.

Shallow embedding conventions:
* Python floats are modelled as exact rationals (`ℚ`); the claims under
  scrutiny concern comparisons and control flow, not rounding.
* Python `None` becomes `Option.none`; a variable that may hold `None`
  has an `Option` type.
* Python dicts keyed by mass number / symbol become association lists
  with replace-in-place insertion (Python dict assignment semantics:
  an existing key keeps its position, a fresh key is appended).
-/

namespace CompilePeriodic

/-- One row of the external NMR table `_nmr_data[sym][str(A)]`:
optional spin `I`, gyromagnetic ratio `gamma`, quadrupole moment `Q`. -/
structure NmrEntry where
  I : Option ℚ
  gamma : Option ℚ
  Q : Option ℚ
deriving Repr, DecidableEq

/-- One isotope from the `periodictable` element table: `iso.isotope`
(mass number), `iso.mass`, `iso.abundance`. -/
structure Isotope where
  A : Nat
  mass : ℚ
  abundance : ℚ
deriving Repr, DecidableEq

/-- One element from the `periodictable` table: `el.symbol`, `el.number`,
and its isotope list in source order. -/
structure Element where
  symbol : String
  Z : Int
  isotopes : List Isotope
deriving Repr, DecidableEq

/-- The record stored in `data['isotopes'][A]`. The `spin`, `gamma` and
`Q` fields keep the optional type of the Python variables they are
assigned from. -/
structure IsoRec where
  A : Nat
  mass : ℚ
  abundance : ℚ
  spin : Option ℚ
  gamma : Option ℚ
  Q : Option ℚ
deriving Repr, DecidableEq

/-- The per-element output record (`data` at the time it is stored into
`element_data[sym]`). -/
structure ElemRecord where
  symbol : String
  Z : Int
  isos : List (Nat × IsoRec)
  maxiso : Option String
  maxisoNMR : Option String
  maxisoQ : Option String
deriving Repr, DecidableEq

/-- The loop state of the per-element isotope scan: the three running
(pointer, abundance) maxima and the isotope dict built so far. -/
structure ElState where
  mostIso : Option Nat
  mostIsoAb : ℚ
  mostNMR : Option Nat
  mostNMRAb : ℚ
  mostQ : Option Nat
  mostQAb : ℚ
  isos : List (Nat × IsoRec)
deriving Repr, DecidableEq

/-- Python truthiness of a float-or-None value: `None` and `0.0` are
falsy, anything else truthy. -/
def truthy : Option ℚ → Bool
  | none => false
  | some x => decide (x ≠ 0)

/-- Python truthiness of an int-or-None value: `None` and `0` falsy. -/
def truthyNat : Option Nat → Bool
  | none => false
  | some n => decide (n ≠ 0)

/-- `nmr.get(str(A), {})` followed by `.get(field, None)` on each field:
look a mass-number key up in an element's NMR table, defaulting to the
empty record. -/
def getNmr (tbl : List (String × NmrEntry)) (k : String) : NmrEntry :=
  ((tbl.find? (fun p => p.1 == k)).map (fun p => p.2)).getD ⟨none, none, none⟩

/-- `_nmr_data.get(sym, {})`. -/
def elNmr (nmrData : List (String × List (String × NmrEntry))) (sym : String) :
    List (String × NmrEntry) :=
  ((nmrData.find? (fun p => p.1 == sym)).map (fun p => p.2)).getD []

/-- The neutron entry is renamed: `if sym == 'n': sym = 'Mu'`. -/
def remapSym (s : String) : String :=
  if s = "n" then "Mu" else s

/-- The fixed muonium mass constant from the source. -/
def muMass : ℚ := mkRat 113428913072988 1000000000000000

/-- `mass = iso.mass`, overridden to the muonium constant when the
(remapped) symbol is `Mu`. -/
def isoMass (sym : String) (iso : Isotope) : ℚ :=
  if sym = "Mu" then muMass else iso.mass

/-- Python dict assignment `d[A] = r`: replace in place if the key is
present, append otherwise. -/
def dictInsert (d : List (Nat × IsoRec)) (A : Nat) (r : IsoRec) :
    List (Nat × IsoRec) :=
  if d.any (fun p => p.1 == A) then
    d.map (fun p => if p.1 == A then (A, r) else p)
  else d ++ [(A, r)]

/-- Dict lookup on the association list. -/
def dictFind (d : List (Nat × IsoRec)) (A : Nat) : Option IsoRec :=
  (d.find? (fun p => p.1 == A)).map (fun p => p.2)

/-- The record the loop body stores for a retained isotope, as a pure
function of the isotope (its contents do not depend on the loop state:
the spin default is `0` exactly when the lookup gave `None`). -/
def mkRec (sym : String) (nmr : List (String × NmrEntry)) (iso : Isotope) :
    IsoRec :=
  let e := getNmr nmr (toString iso.A)
  { A := iso.A
    mass := isoMass sym iso
    abundance := iso.abundance
    spin := match e.I with
      | none => some 0
      | some s => some s
    gamma := e.gamma
    Q := e.Q }

/-- The tail of the loop body once an isotope is retained: the three
maximum updates (each on a strictly greater abundance, the NMR one also
requiring truthy spin, the quadrupolar one truthy `Q`) followed by the
dict store. -/
def recordIso (st : ElState) (A : Nat) (mass ab : ℚ)
    (spin gamma Q : Option ℚ) : ElState :=
  let st1 := if ab > st.mostIsoAb then
    { st with mostIso := some A, mostIsoAb := ab } else st
  let st2 := if ab > st1.mostNMRAb ∧ truthy spin then
    { st1 with mostNMR := some A, mostNMRAb := ab } else st1
  let st3 := if ab > st2.mostQAb ∧ truthy Q then
    { st2 with mostQ := some A, mostQAb := ab } else st2
  { st3 with isos := dictInsert st3.isos A ⟨A, mass, ab, spin, gamma, Q⟩ }

/-- One iteration of `for iso in el:`. Zero abundance skips outright;
an absent spin either discards the isotope (abundance below the lower of
the NMR-active and quadrupole-active running maxima) or defaults the
spin to `0`. -/
def stepIso (sym : String) (nmr : List (String × NmrEntry))
    (st : ElState) (iso : Isotope) : ElState :=
  if iso.abundance = 0 then st
  else
    let e := getNmr nmr (toString iso.A)
    match e.I with
    | none =>
      if iso.abundance < min st.mostNMRAb st.mostQAb then st
      else recordIso st iso.A (isoMass sym iso) iso.abundance (some 0)
        e.gamma e.Q
    | some s =>
      recordIso st iso.A (isoMass sym iso) iso.abundance (some s)
        e.gamma e.Q

/-- Loop state before the first isotope. -/
def initState : ElState := ⟨none, 0, none, 0, none, 0, []⟩

/-- `str(most_iso) if most_iso else None`: note Python truthiness, not
an `is None` test. -/
def maxisoField (o : Option Nat) : Option String :=
  if truthyNat o then o.map (fun n => toString n) else none

/-- The whole per-element body: remap the symbol, fetch the element's
NMR table, fold the isotope scan, and either drop the element
(`most_iso is None`) or build its output record. -/
def processElement (nmrData : List (String × List (String × NmrEntry)))
    (el : Element) : Option (String × ElemRecord) :=
  let sym := remapSym el.symbol
  let nmr := elNmr nmrData sym
  let st := el.isotopes.foldl (stepIso sym nmr) initState
  match st.mostIso with
  | none => none
  | some _ =>
    some (sym,
      { symbol := sym
        Z := el.Z
        isos := st.isos
        maxiso := maxisoField st.mostIso
        maxisoNMR := maxisoField st.mostNMR
        maxisoQ := maxisoField st.mostQ })

/-- Python dict assignment for the top-level `element_data[sym] = data`. -/
def edictInsert (d : List (String × ElemRecord)) (k : String)
    (r : ElemRecord) : List (String × ElemRecord) :=
  if d.any (fun p => p.1 == k) then
    d.map (fun p => if p.1 == k then (k, r) else p)
  else d ++ [(k, r)]

/-- The full `for el in elements:` loop building `element_data`. -/
def elementData (nmrData : List (String × List (String × NmrEntry)))
    (els : List Element) : List (String × ElemRecord) :=
  els.foldl (fun acc el =>
    match processElement nmrData el with
    | none => acc
    | some (s, r) => edictInsert acc s r) []

/-- The module template from the source, applied to the serialized JSON
string (the triple-quoted template ends with a newline of its own). -/
def template (jsonstr : String) : String :=
  "const nmrData = " ++ jsonstr ++ ";\n\nexport default nmrData;\n"

/-- What `print(template.format(jsonstr))` writes to standard output:
`print` appends one more newline to the template text. -/
def programStdout (jsonstr : String) : String :=
  template jsonstr ++ "\n"

/-- Modelled from the spec: the exact emitted shape the spec asserts —
`const nmrData = `, the JSON payload, a semicolon, a blank line, and the
line `export default nmrData;`, with nothing else emitted. -/
def claimedStdout (jsonstr : String) : String :=
  "const nmrData = " ++ jsonstr ++ ";\n\nexport default nmrData;\n"

/-- The loop state after the whole isotope scan of one element. -/
def finalState (nmrData : List (String × List (String × NmrEntry)))
    (el : Element) : ElState :=
  el.isotopes.foldl
    (stepIso (remapSym el.symbol) (elNmr nmrData (remapSym el.symbol)))
    initState

/-- The record `processElement` emits when the element is kept. -/
def elemRecordOf (nmrData : List (String × List (String × NmrEntry)))
    (el : Element) : ElemRecord :=
  { symbol := remapSym el.symbol
    Z := el.Z
    isos := (finalState nmrData el).isos
    maxiso := maxisoField (finalState nmrData el).mostIso
    maxisoNMR := maxisoField (finalState nmrData el).mostNMR
    maxisoQ := maxisoField (finalState nmrData el).mostQ }

/-- Qualification for the overall maximum: every recorded isotope. -/
def QualAll : Nat × IsoRec → Bool := fun _ => true

/-- Qualification for the NMR-active maximum: truthy spin. -/
def QualNMR : Nat × IsoRec → Bool := fun p => truthy p.2.spin

/-- Qualification for the quadrupole-active maximum: truthy `Q`. -/
def QualQuad : Nat × IsoRec → Bool := fun p => truthy p.2.Q

/-- Ties one running (pointer, abundance) maximum to the recorded list:
every qualifying record's abundance is at most the running maximum, and
the pointer either still is the initial `(none, 0)` or names the first
qualifying record achieving the maximum (all earlier qualifying records
are strictly below it). -/
def CatInv (qual : Nat × IsoRec → Bool) (l : List (Nat × IsoRec))
    (b : Option Nat) (m : ℚ) : Prop :=
  (∀ p ∈ l, qual p = true → p.2.abundance ≤ m) ∧
  ((b = none ∧ m = 0) ∨
    ∃ i, ∃ hi : i < l.length, qual l[i] = true ∧ b = some (l[i].1) ∧
      m = l[i].2.abundance ∧
      ∀ j, ∀ hj : j < l.length, j < i → qual l[j] = true →
        l[j].2.abundance < m)

/-- The full invariant of the isotope scan: recorded keys are among the
processed mass numbers, keys are distinct, each key equals its record's
mass number, and each running maximum satisfies its category invariant. -/
def StInv (seen : List Nat) (st : ElState) : Prop :=
  (∀ p ∈ st.isos, p.1 ∈ seen) ∧
  (st.isos.map Prod.fst).Nodup ∧
  (∀ p ∈ st.isos, p.1 = p.2.A) ∧
  CatInv QualAll st.isos st.mostIso st.mostIsoAb ∧
  CatInv QualNMR st.isos st.mostNMR st.mostNMRAb ∧
  CatInv QualQuad st.isos st.mostQ st.mostQAb

/-- The three running maxima are nonnegative, the NMR-active and
quadrupole-active ones never exceed the overall one, and the overall
maximum is zero while its pointer is still unset. -/
def SmallInv (st : ElState) : Prop :=
  0 ≤ st.mostIsoAb ∧ 0 ≤ st.mostNMRAb ∧ 0 ≤ st.mostQAb ∧
  st.mostNMRAb ≤ st.mostIsoAb ∧ st.mostQAb ≤ st.mostIsoAb ∧
  (st.mostIso = none → st.mostIsoAb = 0)

/-- Spec scenario: the element NMR table knows isotope `1` (spin 1/2). -/
def scenNmr : List (String × NmrEntry) := [("1", ⟨some (mkRat 1 2), none, none⟩)]

/-- Loop state after processing scenario isotope A (abundance 0.6,
known spin 0.5). -/
def scenStA : ElState := stepIso "X" scenNmr initState ⟨1, 1, mkRat 3 5⟩

/-- Scenario isotope B: abundance 0.9, no NMR entry (spin unknown). -/
def scenIsoB : Isotope := ⟨2, 2, mkRat 9 10⟩

/-- A one-isotope hydrogen-like element. -/
def elH : Element := ⟨"H", 1, [⟨1, 1, 1⟩]⟩

/-- NMR table knowing spin and gamma for that isotope. -/
def nmrH : List (String × List (String × NmrEntry)) :=
  [("H", [("1", ⟨some (mkRat 1 2), some 26, none⟩)])]

/-- The record the program emits for `elH` under `nmrH`. -/
def recH : ElemRecord :=
  ⟨"H", 1, [(1, ⟨1, 1, 1, some (mkRat 1 2), some 26, none⟩)],
    some "1", some "1", none⟩

/-- A neutron entry with one isotope of full abundance. -/
def elN : Element := ⟨"n", 0, [⟨1, 1, 1⟩]⟩

/-- The record the program emits for `elN` (under an empty NMR table). -/
def recN : ElemRecord :=
  ⟨"Mu", 0, [(1, ⟨1, muMass, 1, some 0, none, none⟩)], some "1", none, none⟩

/-- A tied two-isotope element: both isotopes have abundance 5 and
known spin, so all maxima are achieved twice. -/
def elT : Element := ⟨"T", 2, [⟨1, 1, 5⟩, ⟨2, 2, 5⟩]⟩

/-- NMR table for `elT`. -/
def nmrT : List (String × List (String × NmrEntry)) :=
  [("T", [("1", ⟨some (mkRat 1 2), none, none⟩),
          ("2", ⟨some (mkRat 1 2), none, none⟩)])]

/-- The record the program emits for `elT`: ties resolve to isotope 1. -/
def recT : ElemRecord :=
  ⟨"T", 2,
    [(1, ⟨1, 1, 5, some (mkRat 1 2), none, none⟩),
     (2, ⟨2, 2, 5, some (mkRat 1 2), none, none⟩)],
    some "1", some "1", none⟩

/-- The pointer `s` names the first qualifying recorded isotope whose
abundance achieves the qualifying maximum: all qualifying records
strictly before it are strictly less abundant, and no qualifying record
anywhere is more abundant. -/
def FirstMax (qual : Nat × IsoRec → Bool) (l : List (Nat × IsoRec))
    (s : String) : Prop :=
  ∃ i, ∃ hi : i < l.length, qual l[i] = true ∧ s = toString (l[i].1) ∧
    (∀ j, ∀ hj : j < l.length, j < i → qual l[j] = true →
      l[j].2.abundance < l[i].2.abundance) ∧
    (∀ p ∈ l, qual p = true → p.2.abundance ≤ l[i].2.abundance)

/-- A Python dict key of this data shape: int or str. -/
inductive PyKey where
  | kint (n : Int)
  | kstr (s : String)
deriving Repr, DecidableEq

mutual
/-- A Python value of the shapes `element_data` contains. -/
inductive PyVal where
  | null
  | pint (n : Int)
  | pnum (q : ℚ)
  | pstr (s : String)
  | pdict (entries : PyEntries)
deriving Repr, DecidableEq

/-- Entries of a Python dict, in insertion order. -/
inductive PyEntries where
  | nil
  | cons (k : PyKey) (v : PyVal) (t : PyEntries)
deriving Repr, DecidableEq
end

/-- `json.dumps` renders an int key as its decimal string; a str key is
kept. -/
def keyToJson : PyKey → PyKey
  | .kint n => .kstr (toString n)
  | .kstr s => .kstr s

mutual
/-- Models `json.loads(json.dumps(v))` for this data shape: dict keys
become strings, everything else round-trips unchanged. -/
def roundTrip : PyVal → PyVal
  | .null => .null
  | .pint n => .pint n
  | .pnum q => .pnum q
  | .pstr s => .pstr s
  | .pdict l => .pdict (roundTripEntries l)

/-- `roundTrip` over dict entries. -/
def roundTripEntries : PyEntries → PyEntries
  | .nil => .nil
  | .cons k v t => .cons (keyToJson k) (roundTrip v) (roundTripEntries t)
end

/-- A float-or-None field as a Python value. -/
def optNum : Option ℚ → PyVal
  | none => .null
  | some q => .pnum q

/-- A str-or-None field as a Python value. -/
def optStr : Option String → PyVal
  | none => .null
  | some s => .pstr s

/-- The in-memory `data['isotopes'][A]` record as a Python value. -/
def isoRecPy (r : IsoRec) : PyVal :=
  .pdict (.cons (.kstr "A") (.pint r.A)
    (.cons (.kstr "mass") (.pnum r.mass)
    (.cons (.kstr "abundance") (.pnum r.abundance)
    (.cons (.kstr "spin") (optNum r.spin)
    (.cons (.kstr "gamma") (optNum r.gamma)
    (.cons (.kstr "Q") (optNum r.Q) .nil))))))

/-- The in-memory `isotopes` dict: keyed by *integer* mass number. -/
def isosPyInt : List (Nat × IsoRec) → PyEntries
  | [] => .nil
  | (A, r) :: t => .cons (.kint A) (isoRecPy r) (isosPyInt t)

/-- The parsed `isotopes` object: keys are the decimal strings. -/
def isosPyStr : List (Nat × IsoRec) → PyEntries
  | [] => .nil
  | (A, r) :: t => .cons (.kstr (toString (A : Int))) (isoRecPy r)
      (isosPyStr t)

/-- An in-memory element record as a Python value. -/
def elemRecPy (r : ElemRecord) : PyVal :=
  .pdict (.cons (.kstr "symbol") (.pstr r.symbol)
    (.cons (.kstr "Z") (.pint r.Z)
    (.cons (.kstr "isotopes") (.pdict (isosPyInt r.isos))
    (.cons (.kstr "maxiso") (optStr r.maxiso)
    (.cons (.kstr "maxiso_NMR") (optStr r.maxisoNMR)
    (.cons (.kstr "maxiso_Q") (optStr r.maxisoQ) .nil))))))

/-- The parsed element record: same, with string isotope keys. -/
def elemRecPyStr (r : ElemRecord) : PyVal :=
  .pdict (.cons (.kstr "symbol") (.pstr r.symbol)
    (.cons (.kstr "Z") (.pint r.Z)
    (.cons (.kstr "isotopes") (.pdict (isosPyStr r.isos))
    (.cons (.kstr "maxiso") (optStr r.maxiso)
    (.cons (.kstr "maxiso_NMR") (optStr r.maxisoNMR)
    (.cons (.kstr "maxiso_Q") (optStr r.maxisoQ) .nil))))))

/-- The whole in-memory `element_data` as a Python value. -/
def elementDataPy : List (String × ElemRecord) → PyEntries
  | [] => .nil
  | (s, r) :: t => .cons (.kstr s) (elemRecPy r) (elementDataPy t)

/-- The parsed `element_data`: string isotope keys throughout. -/
def elementDataPyStr : List (String × ElemRecord) → PyEntries
  | [] => .nil
  | (s, r) :: t => .cons (.kstr s) (elemRecPyStr r) (elementDataPyStr t)

/-- The in-memory structure as a Python value. -/
def toPyVal (d : List (String × ElemRecord)) : PyVal :=
  .pdict (elementDataPy d)

/-- The parsed structure as a Python value. -/
def toPyValStr (d : List (String × ElemRecord)) : PyVal :=
  .pdict (elementDataPyStr d)

theorem recordIso_isos (st : ElState) (A : Nat) (mass ab : ℚ)
    (spin gamma Q : Option ℚ) :
    (recordIso st A mass ab spin gamma Q).isos =
      dictInsert st.isos A ⟨A, mass, ab, spin, gamma, Q⟩ := by
  simp only [recordIso]
  split <;> split <;> split <;> rfl

theorem recordIso_mostIso (st : ElState) (A : Nat) (mass ab : ℚ)
    (spin gamma Q : Option ℚ) :
    (recordIso st A mass ab spin gamma Q).mostIso =
      (if ab > st.mostIsoAb then some A else st.mostIso) ∧
    (recordIso st A mass ab spin gamma Q).mostIsoAb =
      (if ab > st.mostIsoAb then ab else st.mostIsoAb) := by
  simp only [recordIso]
  split <;> split <;> split <;> simp_all

theorem recordIso_mostNMR (st : ElState) (A : Nat) (mass ab : ℚ)
    (spin gamma Q : Option ℚ) :
    (recordIso st A mass ab spin gamma Q).mostNMR =
      (if ab > st.mostNMRAb ∧ truthy spin then some A else st.mostNMR) ∧
    (recordIso st A mass ab spin gamma Q).mostNMRAb =
      (if ab > st.mostNMRAb ∧ truthy spin then ab else st.mostNMRAb) := by
  simp only [recordIso]
  split <;> split <;> split <;> simp_all

theorem recordIso_mostQ (st : ElState) (A : Nat) (mass ab : ℚ)
    (spin gamma Q : Option ℚ) :
    (recordIso st A mass ab spin gamma Q).mostQ =
      (if ab > st.mostQAb ∧ truthy Q then some A else st.mostQ) ∧
    (recordIso st A mass ab spin gamma Q).mostQAb =
      (if ab > st.mostQAb ∧ truthy Q then ab else st.mostQAb) := by
  simp only [recordIso]
  split <;> split <;> split <;> simp_all

theorem dictInsert_fresh (d : List (Nat × IsoRec)) (A : Nat) (r : IsoRec)
    (h : A ∉ d.map Prod.fst) : dictInsert d A r = d ++ [(A, r)] := by
  unfold dictInsert
  rw [if_neg]
  simp only [List.any_eq_true, beq_iff_eq, not_exists]
  intro p hp
  exact h (hp.2 ▸ List.mem_map_of_mem Prod.fst hp.1)

theorem dictFind_of_all_ne (d : List (Nat × IsoRec)) (A : Nat) (r : IsoRec)
    (h : ∀ p ∈ d, p.1 ≠ A) : dictFind (d ++ [(A, r)]) A = some r := by
  induction d with
  | nil => simp [dictFind, List.find?]
  | cons p t ih =>
    have hp := h p (List.mem_cons_self p t)
    simp only [List.cons_append, dictFind, List.find?]
    rw [show (p.1 == A) = false by simpa using hp]
    exact ih (fun q hq => h q (List.mem_cons_of_mem p hq))

theorem dictFind_map_replace (d : List (Nat × IsoRec)) (A : Nat) (r : IsoRec)
    (h : ∃ p ∈ d, p.1 = A) :
    dictFind (d.map (fun p => if p.1 == A then (A, r) else p)) A = some r := by
  induction d with
  | nil => simp at h
  | cons p t ih =>
    by_cases hp : p.1 = A
    · simp only [List.map_cons, dictFind, List.find?]
      rw [if_pos (by simpa using hp)]
      simp [List.find?]
    · simp only [List.map_cons, dictFind, List.find?]
      rw [if_neg (by simpa using hp)]
      rw [show (p.1 == A) = false by simpa using hp]
      rcases h with ⟨q, hq, hqA⟩
      rcases List.mem_cons.mp hq with rfl | hq
      · exact absurd hqA hp
      · exact ih ⟨q, hq, hqA⟩

theorem dictFind_dictInsert_self (d : List (Nat × IsoRec)) (A : Nat)
    (r : IsoRec) : dictFind (dictInsert d A r) A = some r := by
  unfold dictInsert
  by_cases hd : d.any (fun p => p.1 == A) = true
  · rw [if_pos hd]
    refine dictFind_map_replace d A r ?_
    simpa [List.any_eq_true] using hd
  · rw [if_neg hd]
    refine dictFind_of_all_ne d A r ?_
    intro p hp
    simp only [List.any_eq_true, beq_iff_eq, not_exists] at hd
    exact fun hpA => hd p ⟨hp, hpA⟩

theorem dictFind_of_nodup_mem (d : List (Nat × IsoRec))
    (hnd : (d.map Prod.fst).Nodup) (A : Nat) (r : IsoRec)
    (h : (A, r) ∈ d) : dictFind d A = some r := by
  induction d with
  | nil => simp at h
  | cons p t ih =>
    rcases List.mem_cons.mp h with rfl | h
    · simp [dictFind, List.find?]
    · have hpA : p.1 ≠ A := by
        intro hpA
        have hA : A ∈ t.map Prod.fst := List.mem_map_of_mem Prod.fst h
        have := (List.nodup_cons.mp hnd).1
        exact this (hpA ▸ hA)
      simp only [dictFind, List.find?]
      rw [show (p.1 == A) = false by simpa using hpA]
      exact ih (List.nodup_cons.mp hnd).2 h

theorem isos_all_dictInsert (P : Nat × IsoRec → Prop)
    (d : List (Nat × IsoRec)) (A : Nat) (r : IsoRec)
    (hd : ∀ p ∈ d, P p) (hr : P (A, r)) :
    ∀ p ∈ dictInsert d A r, P p := by
  unfold dictInsert
  split
  · intro p hp
    rcases List.mem_map.mp hp with ⟨q, hq, rfl⟩
    by_cases hqA : q.1 == A
    · rw [if_pos hqA]; exact hr
    · rw [if_neg hqA]; exact hd q hq
  · intro p hp
    rcases List.mem_append.mp hp with hp | hp
    · exact hd p hp
    · rcases List.mem_singleton.mp hp with rfl
      exact hr

theorem step_all (P : Nat × IsoRec → Prop) (sym : String)
    (nmr : List (String × NmrEntry)) (st : ElState) (iso : Isotope)
    (hP : iso.abundance ≠ 0 → P (iso.A, mkRec sym nmr iso))
    (hst : ∀ p ∈ st.isos, P p) :
    ∀ p ∈ (stepIso sym nmr st iso).isos, P p := by
  by_cases hab : iso.abundance = 0
  · unfold stepIso
    rw [if_pos hab]
    exact hst
  · have hmk := hP hab
    cases hI : (getNmr nmr (toString iso.A)).I with
    | none =>
      simp only [stepIso, if_neg hab, hI]
      split
      · exact hst
      · rw [recordIso_isos]
        refine isos_all_dictInsert P st.isos iso.A _ hst ?_
        simpa [mkRec, hI] using hmk
    | some s =>
      simp only [stepIso, if_neg hab, hI]
      rw [recordIso_isos]
      refine isos_all_dictInsert P st.isos iso.A _ hst ?_
      simpa [mkRec, hI] using hmk

theorem fold_all (P : Nat × IsoRec → Prop) (sym : String)
    (nmr : List (String × NmrEntry)) :
    ∀ (l : List Isotope) (st : ElState),
      (∀ iso ∈ l, iso.abundance ≠ 0 → P (iso.A, mkRec sym nmr iso)) →
      (∀ p ∈ st.isos, P p) →
      ∀ p ∈ (l.foldl (stepIso sym nmr) st).isos, P p := by
  intro l
  induction l with
  | nil => intro st _ hst; exact hst
  | cons iso t ih =>
    intro st hP hst
    simp only [List.foldl_cons]
    exact ih (stepIso sym nmr st iso)
      (fun i hi => hP i (List.mem_cons_of_mem iso hi))
      (step_all P sym nmr st iso (hP iso (List.mem_cons_self iso t)) hst)

theorem processElement_eq (nmrData : List (String × List (String × NmrEntry)))
    (el : Element) :
    processElement nmrData el =
      match (finalState nmrData el).mostIso with
      | none => none
      | some _ => some (remapSym el.symbol, elemRecordOf nmrData el) := rfl

theorem processElement_some_inv
    (nmrData : List (String × List (String × NmrEntry))) (el : Element)
    (sym : String) (rec : ElemRecord)
    (h : processElement nmrData el = some (sym, rec)) :
    sym = remapSym el.symbol ∧ rec = elemRecordOf nmrData el := by
  rw [processElement_eq] at h
  cases hm : (finalState nmrData el).mostIso with
  | none => rw [hm] at h; simp at h
  | some A =>
    rw [hm] at h
    simp only [Option.some.injEq, Prod.mk.injEq] at h
    exact ⟨h.1.symm, h.2.symm⟩

theorem processElement_all (P : Nat × IsoRec → Prop)
    (nmrData : List (String × List (String × NmrEntry))) (el : Element)
    (sym : String) (rec : ElemRecord)
    (h : processElement nmrData el = some (sym, rec))
    (hP : ∀ iso ∈ el.isotopes, iso.abundance ≠ 0 →
      P (iso.A, mkRec (remapSym el.symbol)
          (elNmr nmrData (remapSym el.symbol)) iso)) :
    ∀ p ∈ rec.isos, P p := by
  rcases processElement_some_inv nmrData el sym rec h with ⟨-, h2⟩
  rw [h2]
  exact fold_all P _ _ el.isotopes initState hP (by simp [initState])

theorem catInv_append_keep (qual : Nat × IsoRec → Bool)
    (l : List (Nat × IsoRec)) (b : Option Nat) (m : ℚ) (x : Nat × IsoRec)
    (h : CatInv qual l b m) (hx : qual x = true → x.2.abundance ≤ m) :
    CatInv qual (l ++ [x]) b m := by
  obtain ⟨h1, h2⟩ := h
  constructor
  · intro p hp hq
    rcases List.mem_append.mp hp with hp | hp
    · exact h1 p hp hq
    · rcases List.mem_singleton.mp hp with rfl
      exact hx hq
  · rcases h2 with h2 | ⟨i, hi, hq, hb, hm, hfirst⟩
    · exact Or.inl h2
    · have hi2 : i < (l ++ [x]).length := by
        simp only [List.length_append, List.length_singleton]
        omega
      have hgi : (l ++ [x])[i] = l[i] := List.getElem_append_left hi
      refine Or.inr ⟨i, hi2, ?_, ?_, ?_, ?_⟩
      · rw [hgi]; exact hq
      · rw [hgi]; exact hb
      · rw [hgi]; exact hm
      · intro j hj hji hqj
        have hjl : j < l.length := lt_trans hji hi
        have hgj : (l ++ [x])[j] = l[j] := List.getElem_append_left hjl
        rw [hgj]
        exact hfirst j hjl hji (by rwa [hgj] at hqj)

theorem catInv_append_update (qual : Nat × IsoRec → Bool)
    (l : List (Nat × IsoRec)) (b : Option Nat) (m : ℚ) (x : Nat × IsoRec)
    (h : CatInv qual l b m) (hq : qual x = true) (hm : m < x.2.abundance) :
    CatInv qual (l ++ [x]) (some x.1) x.2.abundance := by
  obtain ⟨h1, h2⟩ := h
  constructor
  · intro p hp hqp
    rcases List.mem_append.mp hp with hp | hp
    · exact le_of_lt (lt_of_le_of_lt (h1 p hp hqp) hm)
    · rcases List.mem_singleton.mp hp with rfl
      exact le_refl _
  · have hlen : l.length < (l ++ [x]).length := by
      simp only [List.length_append, List.length_singleton]
      omega
    have hgl : (l ++ [x])[l.length] = x :=
      List.getElem_concat_length l x l.length rfl hlen
    refine Or.inr ⟨l.length, hlen, ?_, ?_, ?_, ?_⟩
    · rw [hgl]; exact hq
    · rw [hgl]
    · rw [hgl]
    · intro j hj hji hqj
      have hgj : (l ++ [x])[j] = l[j] := List.getElem_append_left hji
      rw [hgj]
      exact lt_of_le_of_lt
        (h1 _ (List.getElem_mem hji) (by rwa [hgj] at hqj)) hm

theorem recordIso_catInv (st : ElState) (A : Nat) (mass ab : ℚ)
    (spin gamma Q : Option ℚ)
    (hfresh : A ∉ st.isos.map Prod.fst)
    (hAll : CatInv QualAll st.isos st.mostIso st.mostIsoAb)
    (hN : CatInv QualNMR st.isos st.mostNMR st.mostNMRAb)
    (hQ : CatInv QualQuad st.isos st.mostQ st.mostQAb) :
    CatInv QualAll (recordIso st A mass ab spin gamma Q).isos
        (recordIso st A mass ab spin gamma Q).mostIso
        (recordIso st A mass ab spin gamma Q).mostIsoAb ∧
    CatInv QualNMR (recordIso st A mass ab spin gamma Q).isos
        (recordIso st A mass ab spin gamma Q).mostNMR
        (recordIso st A mass ab spin gamma Q).mostNMRAb ∧
    CatInv QualQuad (recordIso st A mass ab spin gamma Q).isos
        (recordIso st A mass ab spin gamma Q).mostQ
        (recordIso st A mass ab spin gamma Q).mostQAb := by
  have hisos : (recordIso st A mass ab spin gamma Q).isos =
      st.isos ++ [(A, ⟨A, mass, ab, spin, gamma, Q⟩)] := by
    rw [recordIso_isos, dictInsert_fresh st.isos A _ hfresh]
  refine ⟨?_, ?_, ?_⟩
  · rw [hisos, (recordIso_mostIso st A mass ab spin gamma Q).1,
      (recordIso_mostIso st A mass ab spin gamma Q).2]
    by_cases hc : ab > st.mostIsoAb
    · rw [if_pos hc, if_pos hc]
      exact catInv_append_update QualAll st.isos st.mostIso st.mostIsoAb
        _ hAll rfl hc
    · rw [if_neg hc, if_neg hc]
      exact catInv_append_keep QualAll st.isos st.mostIso st.mostIsoAb
        _ hAll (fun _ => le_of_not_lt hc)
  · rw [hisos, (recordIso_mostNMR st A mass ab spin gamma Q).1,
      (recordIso_mostNMR st A mass ab spin gamma Q).2]
    by_cases hc : ab > st.mostNMRAb ∧ truthy spin
    · rw [if_pos hc, if_pos hc]
      exact catInv_append_update QualNMR st.isos st.mostNMR st.mostNMRAb
        _ hN hc.2 hc.1
    · rw [if_neg hc, if_neg hc]
      refine catInv_append_keep QualNMR st.isos st.mostNMR st.mostNMRAb
        _ hN ?_
      intro hq
      exact le_of_not_lt (fun hgt => hc ⟨hgt, hq⟩)
  · rw [hisos, (recordIso_mostQ st A mass ab spin gamma Q).1,
      (recordIso_mostQ st A mass ab spin gamma Q).2]
    by_cases hc : ab > st.mostQAb ∧ truthy Q
    · rw [if_pos hc, if_pos hc]
      exact catInv_append_update QualQuad st.isos st.mostQ st.mostQAb
        _ hQ hc.2 hc.1
    · rw [if_neg hc, if_neg hc]
      refine catInv_append_keep QualQuad st.isos st.mostQ st.mostQAb _ hQ ?_
      intro hq
      exact le_of_not_lt (fun hgt => hc ⟨hgt, hq⟩)

/-- A zero-abundance isotope is a no-op for the loop state. -/
theorem stepIso_zero (sym : String) (nmr : List (String × NmrEntry))
    (st : ElState) (iso : Isotope) (h : iso.abundance = 0) :
    stepIso sym nmr st iso = st := by
  unfold stepIso
  rw [if_pos h]

theorem stInv_mono (seen seen2 : List Nat) (st : ElState)
    (h : StInv seen st) (hsub : ∀ a ∈ seen, a ∈ seen2) : StInv seen2 st :=
  ⟨fun p hp => hsub p.1 (h.1 p hp), h.2⟩

theorem stInv_init : StInv [] initState := by
  refine ⟨by simp [initState], by simp [initState], by simp [initState],
    ?_, ?_, ?_⟩ <;>
    exact ⟨by simp [initState], Or.inl ⟨rfl, rfl⟩⟩

theorem recordIso_stInv (st : ElState) (seen : List Nat) (A : Nat)
    (mass ab : ℚ) (spin gamma Q : Option ℚ)
    (h : StInv seen st) (hfresh : A ∉ seen) :
    StInv (A :: seen) (recordIso st A mass ab spin gamma Q) := by
  obtain ⟨hkeys, hnd, hAA, hAll, hN, hQ⟩ := h
  have hfreshK : A ∉ st.isos.map Prod.fst := by
    intro hmem
    rcases List.mem_map.mp hmem with ⟨p, hp, hpA⟩
    exact hfresh (hpA ▸ hkeys p hp)
  have hisos : (recordIso st A mass ab spin gamma Q).isos =
      st.isos ++ [(A, ⟨A, mass, ab, spin, gamma, Q⟩)] := by
    rw [recordIso_isos, dictInsert_fresh st.isos A _ hfreshK]
  obtain ⟨c1, c2, c3⟩ :=
    recordIso_catInv st A mass ab spin gamma Q hfreshK hAll hN hQ
  refine ⟨?_, ?_, ?_, c1, c2, c3⟩
  · rw [hisos]
    intro p hp
    rcases List.mem_append.mp hp with hp | hp
    · exact List.mem_cons_of_mem _ (hkeys p hp)
    · rcases List.mem_singleton.mp hp with rfl
      exact List.mem_cons_self _ _
  · rw [hisos, List.map_append]
    refine List.Nodup.append hnd (List.nodup_singleton A) ?_
    intro a ha hax
    rcases List.mem_singleton.mp hax with rfl
    exact hfreshK ha
  · rw [hisos]
    intro p hp
    rcases List.mem_append.mp hp with hp | hp
    · exact hAA p hp
    · rcases List.mem_singleton.mp hp with rfl
      rfl

theorem stepIso_stInv (sym : String) (nmr : List (String × NmrEntry))
    (st : ElState) (iso : Isotope) (seen : List Nat)
    (h : StInv seen st) (hfresh : iso.A ∉ seen) :
    StInv (iso.A :: seen) (stepIso sym nmr st iso) ∧
    ((stepIso sym nmr st iso).isos = st.isos ∨
      (stepIso sym nmr st iso).isos =
        st.isos ++ [(iso.A, mkRec sym nmr iso)]) := by
  have hfreshK : iso.A ∉ st.isos.map Prod.fst := by
    intro hmem
    rcases List.mem_map.mp hmem with ⟨p, hp, hpA⟩
    exact hfresh (hpA ▸ h.1 p hp)
  have hmono : StInv (iso.A :: seen) st :=
    stInv_mono seen (iso.A :: seen) st h
      (fun a ha => List.mem_cons_of_mem _ ha)
  by_cases hab : iso.abundance = 0
  · rw [stepIso_zero sym nmr st iso hab]
    exact ⟨hmono, Or.inl rfl⟩
  · cases hI : (getNmr nmr (toString iso.A)).I with
    | none =>
      by_cases hlt : iso.abundance < min st.mostNMRAb st.mostQAb
      · have hs : stepIso sym nmr st iso = st := by
          simp only [stepIso, if_neg hab, hI]
          rw [if_pos hlt]
        rw [hs]
        exact ⟨hmono, Or.inl rfl⟩
      · have hs : stepIso sym nmr st iso =
            recordIso st iso.A (isoMass sym iso) iso.abundance (some 0)
              (getNmr nmr (toString iso.A)).gamma
              (getNmr nmr (toString iso.A)).Q := by
          simp only [stepIso, if_neg hab, hI]
          rw [if_neg hlt]
        rw [hs]
        refine ⟨recordIso_stInv st seen iso.A _ _ _ _ _ h hfresh, Or.inr ?_⟩
        rw [recordIso_isos, dictInsert_fresh _ _ _ hfreshK]
        simp [mkRec, hI]
    | some s =>
      have hs : stepIso sym nmr st iso =
          recordIso st iso.A (isoMass sym iso) iso.abundance (some s)
            (getNmr nmr (toString iso.A)).gamma
            (getNmr nmr (toString iso.A)).Q := by
        simp only [stepIso, if_neg hab, hI]
      rw [hs]
      refine ⟨recordIso_stInv st seen iso.A _ _ _ _ _ h hfresh, Or.inr ?_⟩
      rw [recordIso_isos, dictInsert_fresh _ _ _ hfreshK]
      simp [mkRec, hI]

theorem foldl_stInv (sym : String) (nmr : List (String × NmrEntry)) :
    ∀ (l : List Isotope) (st : ElState) (seen : List Nat),
      StInv seen st → (∀ i ∈ l, i.A ∉ seen) →
      (l.map (fun i => i.A)).Nodup →
      ∃ seen2, StInv seen2 (l.foldl (stepIso sym nmr) st) ∧
        ∃ suff, (l.foldl (stepIso sym nmr) st).isos = st.isos ++ suff ∧
          List.Sublist suff (l.map (fun i => (i.A, mkRec sym nmr i))) := by
  intro l
  induction l with
  | nil =>
    intro st seen h _ _
    exact ⟨seen, h, [], by simp, List.nil_sublist _⟩
  | cons iso t ih =>
    intro st seen h hfr hnd
    simp only [List.foldl_cons]
    obtain ⟨h2, hor⟩ :=
      stepIso_stInv sym nmr st iso seen h (hfr iso (List.mem_cons_self iso t))
    have hndc : iso.A ∉ t.map (fun i => i.A) ∧
        (t.map (fun i => i.A)).Nodup := by
      rw [List.map_cons, List.nodup_cons] at hnd
      exact hnd
    have hfr2 : ∀ i ∈ t, i.A ∉ iso.A :: seen := by
      intro i hi hmem
      rcases List.mem_cons.mp hmem with heq | hmem2
      · exact hndc.1 (heq ▸ List.mem_map_of_mem (fun i => i.A) hi)
      · exact hfr i (List.mem_cons_of_mem _ hi) hmem2
    obtain ⟨seen2, hinv2, suff2, heq2, hsub2⟩ :=
      ih (stepIso sym nmr st iso) (iso.A :: seen) h2 hfr2 hndc.2
    rcases hor with hor | hor
    · refine ⟨seen2, hinv2, suff2, by rw [heq2, hor], ?_⟩
      rw [List.map_cons]
      exact List.Sublist.cons _ hsub2
    · refine ⟨seen2, hinv2, (iso.A, mkRec sym nmr iso) :: suff2, ?_, ?_⟩
      · rw [heq2, hor]
        simp
      · rw [List.map_cons]
        exact List.Sublist.cons₂ _ hsub2

theorem finalState_stInv (nmrData : List (String × List (String × NmrEntry)))
    (el : Element) (hA : (el.isotopes.map (fun i => i.A)).Nodup) :
    ∃ seen2, StInv seen2 (finalState nmrData el) ∧
      List.Sublist (finalState nmrData el).isos
        (el.isotopes.map (fun i => (i.A,
          mkRec (remapSym el.symbol) (elNmr nmrData (remapSym el.symbol)) i))) := by
  obtain ⟨seen2, hinv, suff, heq, hsub⟩ :=
    foldl_stInv (remapSym el.symbol) (elNmr nmrData (remapSym el.symbol))
      el.isotopes initState [] stInv_init (by simp) hA
  refine ⟨seen2, hinv, ?_⟩
  have hfs : (finalState nmrData el).isos = suff := by
    simpa [initState] using heq
  rw [hfs]
  exact hsub

/-- Inverting the `str(most_iso) if most_iso else None` conversion. -/
theorem maxisoField_some (o : Option Nat) (s : String)
    (h : maxisoField o = some s) : ∃ A, o = some A ∧ s = toString A := by
  unfold maxisoField at h
  split at h
  · cases o with
    | none => cases h
    | some A => exact ⟨A, rfl, (Option.some_inj.mp (by simpa using h)).symm⟩
  · cases h

theorem smallInv_init : SmallInv initState :=
  ⟨le_refl 0, le_refl 0, le_refl 0, le_refl 0, le_refl 0, fun _ => rfl⟩

theorem recordIso_smallInv (st : ElState) (A : Nat) (mass ab : ℚ)
    (spin gamma Q : Option ℚ) (h : SmallInv st) :
    SmallInv (recordIso st A mass ab spin gamma Q) := by
  obtain ⟨h1, h2, h3, h4, h5, h6⟩ := h
  obtain ⟨e1, e2⟩ := recordIso_mostIso st A mass ab spin gamma Q
  obtain ⟨-, e4⟩ := recordIso_mostNMR st A mass ab spin gamma Q
  obtain ⟨-, e6⟩ := recordIso_mostQ st A mass ab spin gamma Q
  unfold SmallInv
  rw [e1, e2, e4, e6]
  split_ifs with c1 c2 c3 c2 c3 <;>
    refine ⟨?_, ?_, ?_, ?_, ?_, ?_⟩ <;>
    first
      | (intro hx; cases hx)
      | exact h6
      | linarith

/-- The loop body either leaves the state unchanged or runs the
maximum-update-and-record tail with some spin value. -/
theorem stepIso_cases (sym : String) (nmr : List (String × NmrEntry))
    (st : ElState) (iso : Isotope) :
    stepIso sym nmr st iso = st ∨
    ∃ spin, stepIso sym nmr st iso =
      recordIso st iso.A (isoMass sym iso) iso.abundance spin
        (getNmr nmr (toString iso.A)).gamma
        (getNmr nmr (toString iso.A)).Q := by
  by_cases hab : iso.abundance = 0
  · exact Or.inl (stepIso_zero sym nmr st iso hab)
  · cases hI : (getNmr nmr (toString iso.A)).I with
    | none =>
      by_cases hlt : iso.abundance < min st.mostNMRAb st.mostQAb
      · refine Or.inl ?_
        simp only [stepIso, if_neg hab, hI]
        rw [if_pos hlt]
      · refine Or.inr ⟨some 0, ?_⟩
        simp only [stepIso, if_neg hab, hI]
        rw [if_neg hlt]
    | some s =>
      refine Or.inr ⟨some s, ?_⟩
      simp only [stepIso, if_neg hab, hI]

theorem stepIso_smallInv (sym : String) (nmr : List (String × NmrEntry))
    (st : ElState) (iso : Isotope) (h : SmallInv st) :
    SmallInv (stepIso sym nmr st iso) := by
  rcases stepIso_cases sym nmr st iso with he | ⟨spin, he⟩
  · rw [he]; exact h
  · rw [he]; exact recordIso_smallInv st iso.A _ _ spin _ _ h

theorem stepIso_ne_none (sym : String) (nmr : List (String × NmrEntry))
    (st : ElState) (iso : Isotope) (hne : st.mostIso ≠ none) :
    (stepIso sym nmr st iso).mostIso ≠ none := by
  rcases stepIso_cases sym nmr st iso with he | ⟨spin, he⟩
  · rw [he]; exact hne
  · rw [he, (recordIso_mostIso st iso.A _ _ spin _ _).1]
    by_cases c : iso.abundance > st.mostIsoAb
    · rw [if_pos c]; simp
    · rw [if_neg c]; exact hne

theorem stepIso_pos_ne_none (sym : String) (nmr : List (String × NmrEntry))
    (st : ElState) (iso : Isotope) (h : SmallInv st)
    (hab : 0 < iso.abundance) :
    (stepIso sym nmr st iso).mostIso ≠ none := by
  obtain ⟨h1, h2, h3, h4, h5, h6⟩ := h
  have hab0 : iso.abundance ≠ 0 := ne_of_gt hab
  have hrec : ∀ spin, (recordIso st iso.A (isoMass sym iso) iso.abundance
      spin (getNmr nmr (toString iso.A)).gamma
      (getNmr nmr (toString iso.A)).Q).mostIso ≠ none := by
    intro spin
    rw [(recordIso_mostIso st iso.A _ _ spin _ _).1]
    by_cases c : iso.abundance > st.mostIsoAb
    · rw [if_pos c]; simp
    · rw [if_neg c]
      intro hnone
      have hz := h6 hnone
      have hle := le_of_not_lt c
      linarith
  cases hI : (getNmr nmr (toString iso.A)).I with
  | none =>
    by_cases hlt : iso.abundance < min st.mostNMRAb st.mostQAb
    · have hs : stepIso sym nmr st iso = st := by
        simp only [stepIso, if_neg hab0, hI]
        rw [if_pos hlt]
      rw [hs]
      intro hnone
      have hz := h6 hnone
      have hmin : min st.mostNMRAb st.mostQAb ≤ st.mostIsoAb :=
        le_trans (min_le_left _ _) h4
      linarith
    · have hs : stepIso sym nmr st iso =
          recordIso st iso.A (isoMass sym iso) iso.abundance (some 0)
            (getNmr nmr (toString iso.A)).gamma
            (getNmr nmr (toString iso.A)).Q := by
        simp only [stepIso, if_neg hab0, hI]
        rw [if_neg hlt]
      rw [hs]
      exact hrec (some 0)
  | some s =>
    have hs : stepIso sym nmr st iso =
        recordIso st iso.A (isoMass sym iso) iso.abundance (some s)
          (getNmr nmr (toString iso.A)).gamma
          (getNmr nmr (toString iso.A)).Q := by
      simp only [stepIso, if_neg hab0, hI]
    rw [hs]
    exact hrec (some s)

theorem foldl_smallInv (sym : String) (nmr : List (String × NmrEntry)) :
    ∀ (l : List Isotope) (st : ElState), SmallInv st →
      SmallInv (l.foldl (stepIso sym nmr) st) := by
  intro l
  induction l with
  | nil => intro st h; exact h
  | cons iso t ih =>
    intro st h
    simp only [List.foldl_cons]
    exact ih _ (stepIso_smallInv sym nmr st iso h)

theorem foldl_ne_none (sym : String) (nmr : List (String × NmrEntry)) :
    ∀ (l : List Isotope) (st : ElState), st.mostIso ≠ none →
      (l.foldl (stepIso sym nmr) st).mostIso ≠ none := by
  intro l
  induction l with
  | nil => intro st h; exact h
  | cons iso t ih =>
    intro st h
    simp only [List.foldl_cons]
    exact ih _ (stepIso_ne_none sym nmr st iso h)

theorem foldl_pos_ne_none (sym : String) (nmr : List (String × NmrEntry)) :
    ∀ (l : List Isotope) (st : ElState), SmallInv st →
      (∃ iso ∈ l, 0 < iso.abundance) →
      (l.foldl (stepIso sym nmr) st).mostIso ≠ none := by
  intro l
  induction l with
  | nil =>
    intro st _ hex
    rcases hex with ⟨iso, hmem, -⟩
    simp at hmem
  | cons iso t ih =>
    intro st hinv hex
    simp only [List.foldl_cons]
    rcases hex with ⟨j, hj, hjpos⟩
    rcases List.mem_cons.mp hj with rfl | hjt
    · exact foldl_ne_none sym nmr t _
        (stepIso_pos_ne_none sym nmr st j hinv hjpos)
    · exact ih _ (stepIso_smallInv sym nmr st iso hinv) ⟨j, hjt, hjpos⟩

theorem foldl_zero_id (sym : String) (nmr : List (String × NmrEntry)) :
    ∀ (l : List Isotope) (st : ElState),
      (∀ iso ∈ l, iso.abundance = 0) →
      l.foldl (stepIso sym nmr) st = st := by
  intro l
  induction l with
  | nil => intro st _; rfl
  | cons iso t ih =>
    intro st hz
    simp only [List.foldl_cons]
    rw [stepIso_zero sym nmr st iso (hz iso (List.mem_cons_self iso t))]
    exact ih st (fun i hi => hz i (List.mem_cons_of_mem iso hi))

theorem catInv_maxisoField (qual : Nat × IsoRec → Bool)
    (l : List (Nat × IsoRec)) (b : Option Nat) (m : ℚ) (s : String)
    (h : CatInv qual l b m) (hs : maxisoField b = some s) :
    FirstMax qual l s := by
  obtain ⟨A, hb, hsA⟩ := maxisoField_some b s hs
  rcases h.2 with ⟨hbn, -⟩ | ⟨i, hi, hq, hb2, hm, hfirst⟩
  · rw [hbn] at hb
    cases hb
  · have hAi : A = l[i].1 := Option.some_inj.mp (hb.symm.trans hb2)
    refine ⟨i, hi, hq, by rw [hsA, hAi], ?_, ?_⟩
    · intro j hj hji hqj
      have hlt := hfirst j hj hji hqj
      rwa [hm] at hlt
    · intro p hp hqp
      have hle := h.1 p hp hqp
      rwa [hm] at hle

theorem firstMax_dictFind (qual : Nat × IsoRec → Bool)
    (l : List (Nat × IsoRec)) (s : String)
    (hnd : (l.map Prod.fst).Nodup) (h : FirstMax qual l s) :
    ∃ A r, s = toString A ∧ dictFind l A = some r ∧ qual (A, r) = true ∧
      ∀ p ∈ l, qual p = true → p.2.abundance ≤ r.abundance := by
  obtain ⟨i, hi, hq, hs, -, hbound⟩ := h
  refine ⟨l[i].1, l[i].2, hs, ?_, hq, fun p hp hqp => hbound p hp hqp⟩
  exact dictFind_of_nodup_mem l hnd _ _ (List.getElem_mem hi)

/-- C1: an isotope with nonzero abundance whose spin is absent from the
NMR lookup is retained (recorded, with spin defaulted to 0) iff its
abundance is not less than the minimum of the running NMR-active and
quadrupole-active maxima; when discarded, the state is untouched, so it
is not recorded and influences no maximum. -/
theorem claim1_retention_rule (sym : String) (nmr : List (String × NmrEntry))
    (st : ElState) (iso : Isotope)
    (hab : iso.abundance ≠ 0)
    (hI : (getNmr nmr (toString iso.A)).I = none) :
    (iso.abundance < min st.mostNMRAb st.mostQAb →
      stepIso sym nmr st iso = st) ∧
    (¬ iso.abundance < min st.mostNMRAb st.mostQAb →
      stepIso sym nmr st iso =
        recordIso st iso.A (isoMass sym iso) iso.abundance (some 0)
          (getNmr nmr (toString iso.A)).gamma
          (getNmr nmr (toString iso.A)).Q ∧
      dictFind (stepIso sym nmr st iso).isos iso.A =
        some (mkRec sym nmr iso) ∧
      (mkRec sym nmr iso).spin = some 0) := by
  constructor
  · intro hlt
    simp only [stepIso, if_neg hab, hI]
    rw [if_pos hlt]
  · intro hge
    have hstep : stepIso sym nmr st iso =
        recordIso st iso.A (isoMass sym iso) iso.abundance (some 0)
          (getNmr nmr (toString iso.A)).gamma
          (getNmr nmr (toString iso.A)).Q := by
      simp only [stepIso, if_neg hab, hI]
      rw [if_neg hge]
    refine ⟨hstep, ?_, by simp [mkRec, hI]⟩
    rw [hstep, recordIso_isos]
    have hrec : (⟨iso.A, isoMass sym iso, iso.abundance, some 0,
        (getNmr nmr (toString iso.A)).gamma,
        (getNmr nmr (toString iso.A)).Q⟩ : IsoRec) = mkRec sym nmr iso := by
      simp [mkRec, hI]
    rw [hrec]
    exact dictFind_dictInsert_self st.isos iso.A (mkRec sym nmr iso)

/-- C1 witness: the spec scenario — after isotope A (abundance 0.6, spin
0.5 known), isotope B (abundance 0.9, spin unknown) is retained and
recorded with spin defaulted to 0. -/
theorem claim1_retention_rule_witness :
    dictFind (stepIso "X" scenNmr scenStA scenIsoB).isos 2 =
      some (mkRec "X" scenNmr scenIsoB) ∧
    (mkRec "X" scenNmr scenIsoB).spin = some 0 :=
  ⟨((claim1_retention_rule "X" scenNmr scenStA scenIsoB (by decide)
      (by decide)).2 (by decide)).2.1,
   ((claim1_retention_rule "X" scenNmr scenStA scenIsoB (by decide)
      (by decide)).2 (by decide)).2.2⟩

/-- C5: an isotope with zero abundance leaves the loop state untouched
(so it influences no maximum and is not recorded), and every recorded
isotope of every emitted element has nonzero abundance. -/
theorem claim5_zero_abundance :
    (∀ (sym : String) (nmr : List (String × NmrEntry)) (st : ElState)
        (iso : Isotope), iso.abundance = 0 → stepIso sym nmr st iso = st) ∧
    (∀ (nmrData : List (String × List (String × NmrEntry))) (el : Element)
        (sym : String) (rec : ElemRecord),
        processElement nmrData el = some (sym, rec) →
        ∀ p ∈ rec.isos, p.2.abundance ≠ 0) := by
  constructor
  · intro sym nmr st iso h
    unfold stepIso
    rw [if_pos h]
  · intro nmrData el sym rec h
    exact processElement_all (fun p => p.2.abundance ≠ 0) nmrData el sym rec h
      (fun iso _ hab => by simpa [mkRec] using hab)

/-- C5 witness: a zero-abundance isotope is a no-op step, and the
concrete emitted hydrogen record holds no zero-abundance isotope. -/
theorem claim5_zero_abundance_witness :
    stepIso "Z" [] initState ⟨64, 64, 0⟩ = initState ∧
    ∀ p ∈ recH.isos, p.2.abundance ≠ 0 :=
  ⟨claim5_zero_abundance.1 "Z" [] initState ⟨64, 64, 0⟩ rfl,
   claim5_zero_abundance.2 nmrH elH "H" recH (by decide)⟩

/-- C6: every recorded isotope has a non-absent spin field, and when the
NMR lookup provides no spin for its mass number, the recorded spin is 0. -/
theorem claim6_spin_defined
    (nmrData : List (String × List (String × NmrEntry))) (el : Element)
    (sym : String) (rec : ElemRecord)
    (h : processElement nmrData el = some (sym, rec)) :
    ∀ p ∈ rec.isos, p.2.spin ≠ none ∧
      ((getNmr (elNmr nmrData (remapSym el.symbol)) (toString p.2.A)).I =
          none → p.2.spin = some 0) := by
  refine processElement_all _ nmrData el sym rec h ?_
  intro iso _ _
  cases hI : (getNmr (elNmr nmrData (remapSym el.symbol))
      (toString iso.A)).I with
  | none => exact ⟨by simp [mkRec, hI], fun _ => by simp [mkRec, hI]⟩
  | some s =>
    refine ⟨by simp [mkRec, hI], fun hI2 => ?_⟩
    have : (mkRec (remapSym el.symbol) (elNmr nmrData (remapSym el.symbol))
        iso).A = iso.A := rfl
    rw [this, hI] at hI2
    cases hI2

/-- C6 witness: the concrete hydrogen record has every spin defined. -/
theorem claim6_spin_defined_witness :
    (some (mkRat 1 2) : Option ℚ) ≠ none ∧
      ((getNmr (elNmr nmrH (remapSym elH.symbol)) (toString (1 : Nat))).I =
          none → (some (mkRat 1 2) : Option ℚ) = some 0) :=
  claim6_spin_defined nmrH elH "H" recH (by decide)
    (1, ⟨1, 1, 1, some (mkRat 1 2), some 26, none⟩) (by decide)

theorem keys_edictInsert (d : List (String × ElemRecord)) (k : String)
    (r : ElemRecord) :
    ∀ p ∈ edictInsert d k r, p.1 ∈ d.map Prod.fst ∨ p.1 = k := by
  unfold edictInsert
  split
  · intro p hp
    rcases List.mem_map.mp hp with ⟨q, hq, rfl⟩
    by_cases hqk : q.1 == k
    · rw [if_pos hqk]
      exact Or.inr rfl
    · rw [if_neg hqk]
      exact Or.inl (List.mem_map_of_mem Prod.fst hq)
  · intro p hp
    rcases List.mem_append.mp hp with hp | hp
    · exact Or.inl (List.mem_map_of_mem Prod.fst hp)
    · rcases List.mem_singleton.mp hp with rfl
      exact Or.inr rfl

theorem remapSym_ne (s : String) : remapSym s ≠ "n" := by
  unfold remapSym
  split
  · decide
  · assumption

theorem foldl_keys (nmrData : List (String × List (String × NmrEntry))) :
    ∀ (els : List Element) (acc : List (String × ElemRecord)) (k : String),
      k ∈ (els.foldl (fun acc el =>
            match processElement nmrData el with
            | none => acc
            | some (s, r) => edictInsert acc s r) acc).map Prod.fst →
      k ∈ acc.map Prod.fst ∨ ∃ el ∈ els, k = remapSym el.symbol := by
  intro els
  induction els with
  | nil => intro acc k h; exact Or.inl h
  | cons el t ih =>
    intro acc k h
    simp only [List.foldl_cons] at h
    rcases ih _ k h with h | ⟨e, he, hk⟩
    · cases hpe : processElement nmrData el with
      | none => rw [hpe] at h; exact Or.inl h
      | some pr =>
        obtain ⟨s, r⟩ := pr
        rw [hpe] at h
        rcases List.mem_map.mp h with ⟨p, hp, rfl⟩
        rcases keys_edictInsert acc s r p hp with h1 | h1
        · exact Or.inl h1
        · rcases processElement_some_inv nmrData el s r hpe with ⟨hs, -⟩
          exact Or.inr ⟨el, List.mem_cons_self el t, h1.trans hs⟩
    · exact Or.inr ⟨e, List.mem_cons_of_mem el he, hk⟩

/-- C8: the neutron entry never appears under its own symbol `n` in the
output (for any input); when a symbol-`n` element is emitted it is keyed
`Mu`, its record symbol is `Mu`, and every recorded isotope's mass is
the fixed muonium constant, regardless of the source mass. -/
theorem claim8_neutron_remap :
    (∀ (nmrData : List (String × List (String × NmrEntry)))
        (els : List Element),
        "n" ∉ (elementData nmrData els).map Prod.fst) ∧
    (∀ (nmrData : List (String × List (String × NmrEntry))) (el : Element)
        (sym : String) (rec : ElemRecord), el.symbol = "n" →
        processElement nmrData el = some (sym, rec) →
        sym = "Mu" ∧ rec.symbol = "Mu" ∧
          ∀ p ∈ rec.isos, p.2.mass = muMass) := by
  constructor
  · intro nmrData els hmem
    rcases foldl_keys nmrData els [] "n"
        (by simpa [elementData] using hmem) with h | ⟨el, -, h⟩
    · simp at h
    · exact remapSym_ne el.symbol h.symm
  · intro nmrData el sym rec hsym h
    have hMu : remapSym el.symbol = "Mu" := by rw [hsym]; rfl
    rcases processElement_some_inv nmrData el sym rec h with ⟨h1, h2⟩
    refine ⟨h1.trans hMu, ?_, ?_⟩
    · rw [h2]
      simp [elemRecordOf, hMu]
    · refine processElement_all _ nmrData el sym rec h ?_
      intro iso _ _
      simp [mkRec, isoMass, hMu]

/-- C8 witness: a concrete symbol-`n` element is emitted under `Mu` with
the overridden mass constant. -/
theorem claim8_neutron_remap_witness :
    "Mu" = "Mu" ∧ recN.symbol = "Mu" ∧ ∀ p ∈ recN.isos, p.2.mass = muMass :=
  claim8_neutron_remap.2 [] elN "Mu" recN rfl (by decide)

/-- C2: for an emitted element (with distinct source mass numbers), each
of the three most-abundant pointers, when present, names a mass number
present as a key of the element's isotope mapping, and the isotope named
by `maxiso` is at least as abundant as every other recorded isotope. -/
theorem claim2_pointers_valid
    (nmrData : List (String × List (String × NmrEntry))) (el : Element)
    (hA : (el.isotopes.map (fun i => i.A)).Nodup)
    (sym : String) (rec : ElemRecord)
    (h : processElement nmrData el = some (sym, rec)) :
    (∀ s, rec.maxiso = some s → ∃ A r, s = toString A ∧
      dictFind rec.isos A = some r ∧
      ∀ p ∈ rec.isos, p.2.abundance ≤ r.abundance) ∧
    (∀ s, rec.maxisoNMR = some s → ∃ A r, s = toString A ∧
      dictFind rec.isos A = some r) ∧
    (∀ s, rec.maxisoQ = some s → ∃ A r, s = toString A ∧
      dictFind rec.isos A = some r) := by
  obtain ⟨-, hrec⟩ := processElement_some_inv nmrData el sym rec h
  subst hrec
  obtain ⟨seen2, hinv, -⟩ := finalState_stInv nmrData el hA
  obtain ⟨-, hnd, -, hAll, hN, hQ⟩ := hinv
  refine ⟨?_, ?_, ?_⟩
  · intro s hs
    have hfm := catInv_maxisoField QualAll _ _ _ s hAll hs
    obtain ⟨A, r, h1, h2, -, h4⟩ := firstMax_dictFind QualAll _ s hnd hfm
    exact ⟨A, r, h1, h2, fun p hp => h4 p hp rfl⟩
  · intro s hs
    have hfm := catInv_maxisoField QualNMR _ _ _ s hN hs
    obtain ⟨A, r, h1, h2, -, -⟩ := firstMax_dictFind QualNMR _ s hnd hfm
    exact ⟨A, r, h1, h2⟩
  · intro s hs
    have hfm := catInv_maxisoField QualQuad _ _ _ s hQ hs
    obtain ⟨A, r, h1, h2, -, -⟩ := firstMax_dictFind QualQuad _ s hnd hfm
    exact ⟨A, r, h1, h2⟩

/-- C2 witness: the concrete hydrogen record's `maxiso` pointer names
key 1, whose abundance bounds all recorded isotopes. -/
theorem claim2_pointers_valid_witness :
    ∃ A r, "1" = toString A ∧ dictFind recH.isos A = some r ∧
      ∀ p ∈ recH.isos, p.2.abundance ≤ r.abundance :=
  (claim2_pointers_valid nmrH elH (by decide) "H" recH (by decide)).1
    "1" rfl

/-- C7: for an emitted element (with distinct source mass numbers), a
present `maxiso_NMR` pointer names a recorded isotope with truthy
(nonzero) spin, and no recorded isotope with truthy spin is strictly
more abundant. -/
theorem claim7_nmr_pointer
    (nmrData : List (String × List (String × NmrEntry))) (el : Element)
    (hA : (el.isotopes.map (fun i => i.A)).Nodup)
    (sym : String) (rec : ElemRecord)
    (h : processElement nmrData el = some (sym, rec)) :
    ∀ s, rec.maxisoNMR = some s → ∃ A r, s = toString A ∧
      dictFind rec.isos A = some r ∧ truthy r.spin = true ∧
      ∀ p ∈ rec.isos, truthy p.2.spin = true →
        p.2.abundance ≤ r.abundance := by
  obtain ⟨-, hrec⟩ := processElement_some_inv nmrData el sym rec h
  subst hrec
  obtain ⟨seen2, hinv, -⟩ := finalState_stInv nmrData el hA
  obtain ⟨-, hnd, -, -, hN, -⟩ := hinv
  intro s hs
  have hfm := catInv_maxisoField QualNMR _ _ _ s hN hs
  obtain ⟨A, r, h1, h2, h3, h4⟩ := firstMax_dictFind QualNMR _ s hnd hfm
  exact ⟨A, r, h1, h2, h3, fun p hp hq => h4 p hp hq⟩

/-- C7 witness: the hydrogen record's `maxiso_NMR` pointer names the
spin-1/2 isotope. -/
theorem claim7_nmr_pointer_witness :
    ∃ A r, "1" = toString A ∧ dictFind recH.isos A = some r ∧
      truthy r.spin = true ∧
      ∀ p ∈ recH.isos, truthy p.2.spin = true →
        p.2.abundance ≤ r.abundance :=
  claim7_nmr_pointer nmrH elH (by decide) "H" recH (by decide) "1" rfl

/-- C10: the recorded isotope list is a subsequence of the element's
source isotope order, and each of the three pointers, when present,
names the first qualifying recorded isotope achieving the qualifying
maximum — so among equally abundant qualifying isotopes the earliest in
source order wins, because each maximum only updates on a strictly
greater abundance. -/
theorem claim10_tie_break
    (nmrData : List (String × List (String × NmrEntry))) (el : Element)
    (hA : (el.isotopes.map (fun i => i.A)).Nodup)
    (sym : String) (rec : ElemRecord)
    (h : processElement nmrData el = some (sym, rec)) :
    List.Sublist rec.isos
      (el.isotopes.map (fun i => (i.A,
        mkRec (remapSym el.symbol) (elNmr nmrData (remapSym el.symbol)) i))) ∧
    (∀ s, rec.maxiso = some s → FirstMax QualAll rec.isos s) ∧
    (∀ s, rec.maxisoNMR = some s → FirstMax QualNMR rec.isos s) ∧
    (∀ s, rec.maxisoQ = some s → FirstMax QualQuad rec.isos s) := by
  obtain ⟨-, hrec⟩ := processElement_some_inv nmrData el sym rec h
  subst hrec
  obtain ⟨seen2, hinv, hsub⟩ := finalState_stInv nmrData el hA
  obtain ⟨-, -, -, hAll, hN, hQ⟩ := hinv
  exact ⟨hsub,
    fun s hs => catInv_maxisoField QualAll _ _ _ s hAll hs,
    fun s hs => catInv_maxisoField QualNMR _ _ _ s hN hs,
    fun s hs => catInv_maxisoField QualQuad _ _ _ s hQ hs⟩

/-- C10 witness: in the tied two-isotope element both isotopes have
abundance 5, and the `maxiso` pointer names the one occurring first in
source order. -/
theorem claim10_tie_break_witness : FirstMax QualAll recT.isos "1" :=
  (claim10_tie_break nmrT elT (by decide) "T" recT (by decide)).2.1 "1" rfl

/-- C4: for abundances in range (nonnegative, as the data model
requires), an element is entirely absent from the output iff no isotope
was ever selected as the overall most-abundant one, which happens iff
every isotope has zero abundance (including the no-isotope case). -/
theorem claim4_element_absent
    (nmrData : List (String × List (String × NmrEntry))) (el : Element)
    (hpos : ∀ iso ∈ el.isotopes, 0 ≤ iso.abundance) :
    processElement nmrData el = none ↔
      ∀ iso ∈ el.isotopes, iso.abundance = 0 := by
  rw [processElement_eq]
  constructor
  · intro h
    by_contra hne
    push_neg at hne
    obtain ⟨iso, hmem, hab⟩ := hne
    have hp : 0 < iso.abundance :=
      lt_of_le_of_ne (hpos iso hmem) (Ne.symm hab)
    have hnn : (finalState nmrData el).mostIso ≠ none :=
      foldl_pos_ne_none (remapSym el.symbol)
        (elNmr nmrData (remapSym el.symbol)) el.isotopes initState
        smallInv_init ⟨iso, hmem, hp⟩
    cases hm : (finalState nmrData el).mostIso with
    | none => exact hnn hm
    | some A =>
      rw [hm] at h
      cases h
  · intro hz
    have hid : finalState nmrData el = initState :=
      foldl_zero_id (remapSym el.symbol)
        (elNmr nmrData (remapSym el.symbol)) el.isotopes initState hz
    rw [hid]
    rfl

/-- C4 witness: the spec scenario — an element whose single isotope has
abundance 0 is entirely absent from the output. -/
theorem claim4_element_absent_witness :
    processElement ([] : List (String × List (String × NmrEntry)))
      ⟨"Z", 30, [⟨64, 64, 0⟩]⟩ = none :=
  (claim4_element_absent [] ⟨"Z", 30, [⟨64, 64, 0⟩]⟩
    (by intro iso hm; rcases List.mem_singleton.mp hm with rfl; decide)).mpr
    (by intro iso hm; rcases List.mem_singleton.mp hm with rfl; rfl)

theorem roundTrip_isoRecPy (r : IsoRec) :
    roundTrip (isoRecPy r) = isoRecPy r := by
  rcases r with ⟨A, mass, ab, spin, gamma, Q⟩
  cases spin <;> cases gamma <;> cases Q <;> rfl

theorem roundTripEntries_isosPy (l : List (Nat × IsoRec)) :
    roundTripEntries (isosPyInt l) = isosPyStr l := by
  induction l with
  | nil => rfl
  | cons p t ih =>
    obtain ⟨A, r⟩ := p
    simp only [isosPyInt, isosPyStr, roundTripEntries, keyToJson,
      roundTrip_isoRecPy, ih]

theorem roundTrip_elemRecPy (r : ElemRecord) :
    roundTrip (elemRecPy r) = elemRecPyStr r := by
  rcases r with ⟨sym, Z, isos, m1, m2, m3⟩
  cases m1 <;> cases m2 <;> cases m3 <;>
    simp only [elemRecPy, elemRecPyStr, roundTrip, roundTripEntries,
      keyToJson, optStr, roundTripEntries_isosPy]

theorem roundTripEntries_elementData (d : List (String × ElemRecord)) :
    roundTripEntries (elementDataPy d) = elementDataPyStr d := by
  induction d with
  | nil => rfl
  | cons p t ih =>
    obtain ⟨s, r⟩ := p
    simp only [elementDataPy, elementDataPyStr, roundTripEntries,
      keyToJson, roundTrip_elemRecPy, ih]

/-- C3 counterexample: for a concrete one-element input, parsing the
serialized form of the structure actually built does not reproduce it —
the integer isotope keys come back as strings. -/
theorem claim3_counterexample :
    roundTrip (toPyVal (elementData nmrH [elH])) ≠
      toPyVal (elementData nmrH [elH]) := by decide

/-- C3 amended: the round trip is lossless except that the integer mass
-number keys of each `isotopes` mapping come back as their decimal
strings: parsing the serialized form yields exactly the in-memory
structure with those keys stringified. -/
theorem claim3_round_trip
    (nmrData : List (String × List (String × NmrEntry)))
    (els : List Element) :
    roundTrip (toPyVal (elementData nmrData els)) =
      toPyValStr (elementData nmrData els) := by
  simp only [toPyVal, toPyValStr, roundTrip,
    roundTripEntries_elementData]

/-- C9 counterexample: the program's stdout text is not the spec's exact
shape — `print` appends one more newline to the template, which already
ends with one, so a trailing blank line is also emitted. -/
theorem claim9_counterexample :
    programStdout "\x7b\x7d" ≠ claimedStdout "\x7b\x7d" := by decide

/-- C9 amended: the output equals the spec's exact shape followed by one
additional trailing newline. -/
theorem claim9_output_shape (jsonstr : String) :
    programStdout jsonstr = claimedStdout jsonstr ++ "\n" := rfl

end CompilePeriodic
